import Mathlib

/-!
# Verification of the sampling/consolidation/retention subsystem

A shallow embedding, in Lean 4, of the core of the `system-stats-dashboard`
repository: the rolling stats history buffer (`src/stats_history.rs`),
the consolidation (averaging) algorithm, the two-file persistence store,
and the history-affecting part of the background update loop.

Modelling conventions:
* Rust `f32` values are modelled as exact rationals (`ℚ`); the claims
  settled here are structural (which count is used as a divisor, which
  fields are wrapped in `Some`, ...) and the concrete counterexamples use
  values on which `f32` arithmetic is exact.
* `u64` / `usize` are modelled as `ℕ`, `i64` as `ℤ`.
  `NonZeroUsize` is modelled as `ℕ` together with positivity hypotheses.
* Fallible operations return `Option` / `Except`; a Rust `panic!` is
  modelled as `none`.
* File-system state (for the persistence store) is modelled explicitly as
  optional line lists; serialization is a parameter.
-/

namespace StatsDashboard

/-! ## Data model (src/stats.rs) -/

/-- Load average values (`LoadAverages` in src/stats.rs). `f32` fields
modelled as `ℚ`. -/
structure LoadAverages where
  one_minute : ℚ
  five_minutes : ℚ
  fifteen_minutes : ℚ
  deriving DecidableEq, Repr

/-- General system stats (`GeneralStats` in src/stats.rs). -/
structure GeneralStats where
  uptime_seconds : Option ℕ
  boot_timestamp : Option ℤ
  load_averages : Option LoadAverages
  deriving DecidableEq, Repr

/-- CPU stats (`CpuStats` in src/stats.rs). -/
structure CpuStats where
  per_logical_cpu_load_percent : Option (List ℚ)
  aggregate_load_percent : Option ℚ
  temp_celsius : Option ℚ
  deriving DecidableEq, Repr

/-- Memory stats (`MemoryStats` in src/stats.rs). -/
structure MemoryStats where
  used_mb : ℕ
  total_mb : ℕ
  deriving DecidableEq, Repr

/-- Stats for a mounted filesystem (`MountStats` in src/stats.rs). -/
structure MountStats where
  fs_type : String
  mounted_from : String
  mounted_on : String
  used_mb : ℕ
  total_mb : ℕ
  deriving DecidableEq, Repr

/-- Stats for a network interface (`NetworkInterfaceStats` in src/stats.rs). -/
structure NetworkInterfaceStats where
  name : String
  addresses : List String
  sent_bytes : ℕ
  received_bytes : ℕ
  sent_packets : ℕ
  received_packets : ℕ
  send_errors : ℕ
  receive_errors : ℕ
  deriving DecidableEq, Repr

/-- Stats for sockets (`SocketStats` in src/stats.rs). -/
structure SocketStats where
  tcp_in_use : ℕ
  tcp_orphaned : ℕ
  udp_in_use : ℕ
  tcp6_in_use : ℕ
  udp6_in_use : ℕ
  deriving DecidableEq, Repr

/-- Network stats (`NetworkStats` in src/stats.rs). -/
structure NetworkStats where
  interfaces : Option (List NetworkInterfaceStats)
  sockets : Option SocketStats
  deriving DecidableEq, Repr

/-- All system stats (`AllStats`). `collection_time` is the timestamp used
by `consolidate_all_stats` in src/stats_history.rs; its payload is opaque
here and modelled as `ℕ`. -/
structure AllStats where
  general : GeneralStats
  cpu : CpuStats
  memory : Option MemoryStats
  filesystems : Option (List MountStats)
  network : NetworkStats
  collection_time : ℕ
  deriving DecidableEq, Repr

/-- The `Default` instance for `AllStats` (src/stats.rs): every optional
field absent. -/
def AllStats.default0 : AllStats :=
  { general := { uptime_seconds := none, boot_timestamp := none, load_averages := none }
    cpu := { per_logical_cpu_load_percent := none, aggregate_load_percent := none,
             temp_celsius := none }
    memory := none
    filesystems := none
    network := { interfaces := none, sockets := none }
    collection_time := 0 }

/-- A default snapshot distinguished only by its collection time;
used to build concrete test inputs. -/
def mkStats (t : ℕ) : AllStats :=
  { AllStats.default0 with collection_time := t }

/-! ## StatsHistory (src/stats_history.rs, lines 266-363) -/

/-- A rolling history of system stats (`StatsHistory` in
src/stats_history.rs). `max_size` is a `NonZeroUsize` in Rust; here it is a
`ℕ` and theorems carry `0 < max_size` where it matters. -/
structure StatsHistory where
  max_size : ℕ
  stats : List AllStats
  most_recent_index : ℕ
  deriving DecidableEq, Repr

namespace StatsHistory

/-- `StatsHistory::new` (lines 280-286). -/
def new (max_size : ℕ) : StatsHistory :=
  { max_size := max_size, stats := [], most_recent_index := 0 }

/-- `StatsHistory::get_next_index` (lines 356-362). Note the Rust code
computes `(most_recent_index + 1) % (max_size - 1)`: modulo capacity MINUS
ONE, not modulo capacity. -/
def get_next_index (h : StatsHistory) : ℕ :=
  if h.max_size = 1 then 0
  else (h.most_recent_index + 1) % (h.max_size - 1)

/-- `StatsHistory::push` (lines 324-334). When the list is full the Rust
code sets `most_recent_index = get_next_index()` and then calls
`update_most_recent_stats`, which (the list being non-empty, as
`max_size ≥ 1`) writes `stats[most_recent_index] = new_stats`; that call is
inlined here. -/
def push (h : StatsHistory) (new_stats : AllStats) : StatsHistory :=
  if h.stats.length = h.max_size then
    { h with most_recent_index := h.get_next_index,
             stats := h.stats.set h.get_next_index new_stats }
  else
    { h with stats := h.stats ++ [new_stats],
             most_recent_index := h.stats.length }

/-- `StatsHistory::update_most_recent_stats` (lines 339-345). -/
def update_most_recent_stats (h : StatsHistory) (new_stats : AllStats) : StatsHistory :=
  if h.stats.isEmpty then h.push new_stats
  else { h with stats := h.stats.set h.most_recent_index new_stats }

/-- `StatsHistory::get_most_recent_stats` (lines 348-354). -/
def get_most_recent_stats (h : StatsHistory) : Option AllStats :=
  if h.stats.isEmpty then none
  else h.stats.get? h.most_recent_index

end StatsHistory

/-! ## The iterator (src/stats_history.rs, lines 365-409)

The Rust iterator holds a reference to the history, a current index and a
`done` flag; `next` is modelled by `iterNext`, which returns the yielded
element together with the successor state (`none` when exhausted, or when
the index is out of bounds — where Rust would panic). Because the claims
concern (non-)termination, runs are modelled with explicit fuel. -/

/-- The state of `StatsHistoryIterator`: its `index` and `done` fields. -/
structure IterSt where
  index : ℕ
  done : Bool
  deriving DecidableEq, Repr

/-- `Iterator::next` for `StatsHistoryIterator` (lines 395-408). Note the
wraparound uses `% (max_size - 1)`, mirroring the Rust code. -/
def iterNext (h : StatsHistory) (st : IterSt) : Option (AllStats × IterSt) :=
  if st.done then none
  else
    match h.stats.get? st.index with
    | none => none
    | some a =>
      if st.index = h.most_recent_index then some (a, { st with done := true })
      else some (a, { st with index := (st.index + 1) % (h.max_size - 1) })

/-- `IntoIterator for &StatsHistory` (lines 369-383): the starting state. -/
def intoIter (h : StatsHistory) : IterSt :=
  { index := if h.stats.length = h.max_size then h.get_next_index else 0
    done := false }

/-- One advance step: apply `iterNext`, staying put once it yields nothing. -/
def iterAdvance (h : StatsHistory) (st : IterSt) : IterSt :=
  match iterNext h st with
  | none => st
  | some (_, st') => st'

/-- The iterator state after `n` calls to `next`. -/
def iterRunN (h : StatsHistory) : ℕ → IterSt → IterSt
  | 0, st => st
  | n + 1, st => iterRunN h n (iterAdvance h st)

/-- The elements yielded by the first `n` calls to `next`. -/
def iterEmit (h : StatsHistory) : ℕ → IterSt → List AllStats
  | 0, _ => []
  | n + 1, st =>
    match iterNext h st with
    | none => []
    | some (a, st') => a :: iterEmit h n st'

/-- Iteration over `h` terminates: some finite number of `next` calls
drives the iterator to its `done` state. -/
def iterTerminates (h : StatsHistory) : Prop :=
  ∃ n, (iterRunN h n (intoIter h)).done = true

/-! ## Consolidation (src/stats_history.rs, lines 96-264)

`consolidate_all_stats` iterates once over the input list, updating one
independent running-average accumulator per optional numeric field: the
accumulator for a field starts at `0.0` and, in iteration `i` (0-based over
ALL snapshots), is updated via `updated_average(value, i + 1)` exactly when
the field is present in that snapshot. Since the accumulators do not
interact, the single Rust pass is embedded as one fold per accumulator
(`runAvg` / `runVecAvg` / `maxTotalFold`), each walking the same list with
the same global index. -/

/-- `MovingAverage<f32> for f32::updated_average` (lines 240-244). -/
def updated_average (self new_value : ℚ) (n : ℕ) : ℚ :=
  self + (new_value - self) / (n : ℚ)

/-- The running-average accumulator for one scalar optional field:
`avg` is the accumulator, `i` the 0-based index of the next snapshot; a
present value `v` updates the accumulator via `updated_average v (i+1)`,
an absent one leaves it unchanged (the loop body of lines 119-161). -/
def runAvg : ℚ → ℕ → List (Option ℚ) → ℚ
  | avg, _, [] => avg
  | avg, i, none :: rest => runAvg avg (i + 1) rest
  | avg, i, some v :: rest => runAvg (updated_average avg v (i + 1)) (i + 1) rest

/-- The final accumulator value of the scalar field extracted by `g`,
over the whole input list. -/
def fieldAverage (g : AllStats → Option ℚ) (l : List AllStats) : ℚ :=
  runAvg 0 0 (l.map g)

/-- `MovingAverageCollection<f32> for Vec<f32>::update_averages`
(lines 254-264): pads `self` with zeroes up to `new_values.len()`, then
updates the first `new_values.len()` entries. -/
def update_averages (self new_values : List ℚ) (n : ℕ) : List ℚ :=
  let padded := self ++ List.replicate (new_values.length - self.length) 0
  padded.mapIdx fun i v =>
    match new_values.get? i with
    | some nv => v + (nv - v) / (n : ℚ)
    | none => v

/-- The running-average accumulator for the per-logical-CPU load vector
(`average_per_logical_cpu_loads`, updated at line 130). -/
def runVecAvg : List ℚ → ℕ → List (Option (List ℚ)) → List ℚ
  | acc, _, [] => acc
  | acc, i, none :: rest => runVecAvg acc (i + 1) rest
  | acc, i, some vs :: rest => runVecAvg (update_averages acc vs (i + 1)) (i + 1) rest

/-- The `max_total_mem` accumulator (lines 144-146): the maximum
`total_mb` over snapshots with a memory reading, starting from `0`. -/
def maxTotalMem (l : List AllStats) : ℕ :=
  l.foldl
    (fun m s =>
      match s.memory with
      | some ms => if m < ms.total_mb then ms.total_mb else m
      | none => m)
    0

/-- Rust `f32::round` (round half away from zero) on an exact rational. -/
def rustRound (q : ℚ) : ℤ :=
  if 0 ≤ q then Int.floor (q + 1 / 2) else -Int.floor (-q + 1 / 2)

/-- `f32::round() as usize` / `as u64`: rounding followed by a saturating
cast to an unsigned integer. -/
def rustRoundNat (q : ℚ) : ℕ :=
  (rustRound q).toNat

/-- Field extractors for the scalar averaged fields, as they appear in the
loop of lines 119-161. -/
def oneMinOf (s : AllStats) : Option ℚ := s.general.load_averages.map (·.one_minute)

def fiveMinOf (s : AllStats) : Option ℚ := s.general.load_averages.map (·.five_minutes)

def fifteenMinOf (s : AllStats) : Option ℚ := s.general.load_averages.map (·.fifteen_minutes)

def aggregateOf (s : AllStats) : Option ℚ := s.cpu.aggregate_load_percent

def tempOf (s : AllStats) : Option ℚ := s.cpu.temp_celsius

def memUsedOf (s : AllStats) : Option ℚ := s.memory.map (fun m => (m.used_mb : ℚ))

def tcpInUseOf (s : AllStats) : Option ℚ := s.network.sockets.map (fun k => (k.tcp_in_use : ℚ))

def tcpOrphanedOf (s : AllStats) : Option ℚ := s.network.sockets.map (fun k => (k.tcp_orphaned : ℚ))

def udpInUseOf (s : AllStats) : Option ℚ := s.network.sockets.map (fun k => (k.udp_in_use : ℚ))

def tcp6InUseOf (s : AllStats) : Option ℚ := s.network.sockets.map (fun k => (k.tcp6_in_use : ℚ))

def udp6InUseOf (s : AllStats) : Option ℚ := s.network.sockets.map (fun k => (k.udp6_in_use : ℚ))

/-- `consolidate_all_stats` (lines 96-204). An empty input list panics in
Rust (line 98), modelled as `none`. For a non-empty list, the averaged
fields are all wrapped in `Some`, and the non-averaged fields are taken
from the last snapshot (which the Rust code pops off the list). -/
def consolidate_all_stats (stats_list : List AllStats) : Option AllStats :=
  match stats_list.getLast? with
  | none => none
  | some last_stats =>
    some
      { general :=
          { uptime_seconds := last_stats.general.uptime_seconds
            boot_timestamp := last_stats.general.boot_timestamp
            load_averages :=
              some
                { one_minute := fieldAverage oneMinOf stats_list
                  five_minutes := fieldAverage fiveMinOf stats_list
                  fifteen_minutes := fieldAverage fifteenMinOf stats_list } }
        cpu :=
          { per_logical_cpu_load_percent :=
              some (runVecAvg [] 0 (stats_list.map (·.cpu.per_logical_cpu_load_percent)))
            aggregate_load_percent := some (fieldAverage aggregateOf stats_list)
            temp_celsius := some (fieldAverage tempOf stats_list) }
        memory :=
          some
            { used_mb := rustRoundNat (fieldAverage memUsedOf stats_list)
              total_mb := maxTotalMem stats_list }
        filesystems := last_stats.filesystems
        network :=
          { interfaces := last_stats.network.interfaces
            sockets :=
              some
                { tcp_in_use := rustRoundNat (fieldAverage tcpInUseOf stats_list)
                  tcp_orphaned := rustRoundNat (fieldAverage tcpOrphanedOf stats_list)
                  udp_in_use := rustRoundNat (fieldAverage udpInUseOf stats_list)
                  tcp6_in_use := rustRoundNat (fieldAverage tcp6InUseOf stats_list)
                  udp6_in_use := rustRoundNat (fieldAverage udp6InUseOf stats_list) } }
        collection_time := last_stats.collection_time }

/-! ## The update loop's history effect (src/stats_history.rs, lines 62-87)

One iteration of the update-thread loop: the freshly sampled `new_stats`
is appended to the in-memory batch (`recent_stats`); if the batch has
reached `consolidation_limit` the loop consolidates the batch, attempts
persistence (the `Result` is only printed — the history update below does
not depend on it, which `persistOk` makes explicit), REPLACES the most
recent history entry with the consolidated snapshot via
`update_most_recent_stats`, pushes `new_stats` as a fresh entry, and
clears the batch; otherwise it publishes `new_stats` via
`update_most_recent_stats`. -/

/-- The flush path (lines 66-80): `batch` is `recent_stats` after the new
sample was appended, so it is non-empty and ends with the raw sample that
gets re-pushed. `persistOk` is the outcome of the persistence attempt,
which the Rust code only logs. -/
def consolidation_flush (_persistOk : Bool) (h : StatsHistory) (batch : List AllStats) :
    StatsHistory :=
  match consolidate_all_stats batch, batch.getLast? with
  | some consolidated, some raw => (h.update_most_recent_stats consolidated).push raw
  | _, _ => h

/-- The flush path as the spec's words describe it (`push` the consolidated
snapshot, then `push` the raw one) — stated only to be compared with
`consolidation_flush`, which follows the code. -/
def consolidation_flush_per_spec (h : StatsHistory) (batch : List AllStats) : StatsHistory :=
  match consolidate_all_stats batch, batch.getLast? with
  | some consolidated, some raw => (h.push consolidated).push raw
  | _, _ => h

/-- One full iteration of the update loop's effect on the batch and the
shared history (lines 62-87), given the freshly sampled `new_stats`:
returns the new batch and the new history. -/
def loop_iteration (persistOk : Bool) (consolidation_limit : ℕ) (batch : List AllStats)
    (h : StatsHistory) (new_stats : AllStats) : List AllStats × StatsHistory :=
  let batch' := batch ++ [new_stats]
  if consolidation_limit ≤ batch'.length then
    ([], consolidation_flush persistOk h batch')
  else
    (batch', h.update_most_recent_stats new_stats)

/-! ## Persistence (src/stats_history.rs, lines 206-228 and 291-319)

The relevant file-system state: whether the directory exists, and the
lines of the two history files (`none` = the file does not exist).
Serialization of a snapshot is a parameter (`serialize`); a line written
by `writeln!` occupies `(serialize s).length + 1` bytes (the newline). -/

/-- The on-disk state of the persistence directory. -/
structure PersistState where
  dirExists : Bool
  currentFile : Option (List String)
  oldFile : Option (List String)
  deriving DecidableEq, Repr

/-- The byte size of a file given as its list of lines (each line was
written by `writeln!`, so it ends in a newline byte). -/
def fileSize (lines : List String) : ℕ :=
  (lines.map fun l => l.length + 1).sum

/-- The byte size of an optional file (`0` when absent). -/
def optFileSize (o : Option (List String)) : ℕ :=
  fileSize (o.getD [])

/-- `persist_stats` (lines 206-228): ensures the directory exists, rotates
`current` to `old` when `current` exists with size `≥ limit / 2`
(overwriting any prior `old`), then appends one serialized line to
`current` (creating it if needed). I/O errors are out of scope of this
model (the claims concern the success path and the size invariant). -/
def persist_stats (serialize : AllStats → String) (stats : AllStats) (st : PersistState)
    (dir_size_limit_bytes : ℕ) : PersistState :=
  let st1 := { st with dirExists := true }
  let st2 :=
    match st1.currentFile with
    | some lines =>
      if dir_size_limit_bytes / 2 ≤ fileSize lines then
        { st1 with oldFile := some lines, currentFile := none }
      else st1
    | none => st1
  { st2 with currentFile := some (st2.currentFile.getD [] ++ [serialize stats]) }

/-- `true` exactly when `persist_stats` takes the rename branch
(lines 215-219). -/
def rotates (st : PersistState) (dir_size_limit_bytes : ℕ) : Bool :=
  match st.currentFile with
  | some lines => dir_size_limit_bytes / 2 ≤ fileSize lines
  | none => false

/-! ## Loading (src/stats_history.rs, lines 291-319)

`load_from` reads the "old" file's lines, then the "current" file's
lines, deserializing each line (`serde_json::from_str`, a parameter `dec`
here); the first malformed line aborts the whole load with its error. -/

/-- The `for line in ... { stats.push(serde_json::from_str(&line?)?) }`
loops (lines 299-301 and 306-308): decode every line, short-circuiting on
the first error. -/
def decodeLines (dec : String → Except String AllStats) :
    List String → Except String (List AllStats)
  | [] => .ok []
  | l :: rest =>
    match dec l with
    | .error e => .error e
    | .ok s =>
      match decodeLines dec rest with
      | .error e => .error e
      | .ok ss => .ok (s :: ss)

/-- `StatsHistory::load_from` (lines 291-319), over the file-system state:
each file is `none` when absent, otherwise its list of lines. -/
def load_from (dec : String → Except String AllStats)
    (oldFile currentFile : Option (List String)) : Except String StatsHistory :=
  match decodeLines dec (oldFile.getD []) with
  | .error e => .error e
  | .ok oldStats =>
    match decodeLines dec (currentFile.getD []) with
    | .error e => .error e
    | .ok curStats =>
      let stats := oldStats ++ curStats
      if stats.length = 0 then .ok (StatsHistory.new 1)
      else
        .ok { max_size := stats.length, stats := stats,
              most_recent_index := stats.length - 1 }

/-! ## Shared helper lemmas and concrete states -/

/-- A full capacity-3 history: three pushes into a fresh `StatsHistory` of
`max_size` 3 (so `stats = [mkStats 1, mkStats 2, mkStats 3]` and
`most_recent_index = 2`). -/
def fullHistory3 : StatsHistory :=
  (((StatsHistory.new 3).push (mkStats 1)).push (mkStats 2)).push (mkStats 3)

/-- From iterator state `⟨0, false⟩` or `⟨1, false⟩`, iterating
`fullHistory3` only moves between those two states: the `done` flag is
never set, because the wraparound `% (max_size - 1) = % 2` can never land
on `most_recent_index = 2`. -/
lemma fullHistory3_iter_cycle :
    ∀ (n : ℕ) (st : IterSt), st = ⟨0, false⟩ ∨ st = ⟨1, false⟩ →
      (iterRunN fullHistory3 n st).done = false := by
  intro n
  induction n with
  | zero => rintro st (rfl | rfl) <;> rfl
  | succ n ih =>
    rintro st (rfl | rfl)
    · have e : iterRunN fullHistory3 (n + 1) ⟨0, false⟩ = iterRunN fullHistory3 n ⟨1, false⟩ :=
        rfl
      rw [e]
      exact ih _ (Or.inr rfl)
    · have e : iterRunN fullHistory3 (n + 1) ⟨1, false⟩ = iterRunN fullHistory3 n ⟨0, false⟩ :=
        rfl
      rw [e]
      exact ih _ (Or.inl rfl)

/-- One present value folded into a running mean: if the accumulator holds
`S / i` (the mean of the first `i` contributions, with `S = 0` when
`i = 0`), the update with divisor `i + 1` yields `(S + v) / (i + 1)`. -/
lemma updated_average_step (S v : ℚ) (i : ℕ) (h0 : i = 0 → S = 0) :
    updated_average (S / (i : ℚ)) v (i + 1) = (S + v) / ((i : ℚ) + 1) := by
  rcases Nat.eq_zero_or_pos i with hi | hi
  · subst hi
    simp [h0 rfl, updated_average]
  · have hi' : ((i : ℚ)) ≠ 0 := Nat.cast_ne_zero.2 hi.ne'
    have hi1 : ((i : ℚ)) + 1 ≠ 0 := by positivity
    unfold updated_average
    push_cast
    field_simp
    ring

/-- Running the scalar accumulator over a list of present values: starting
from mean `S / i` at position `i` (with `S = 0` when `i = 0`), the result
is the mean of all contributions. -/
lemma runAvg_somes (vs : List ℚ) :
    ∀ (i : ℕ) (S : ℚ), (i = 0 → S = 0) →
      runAvg (S / (i : ℚ)) i (vs.map some) = (S + vs.sum) / ((i : ℚ) + vs.length) := by
  induction vs with
  | nil =>
    intro i S _
    simp [runAvg]
  | cons v rest ih =>
    intro i S h0
    have step : runAvg (S / (i : ℚ)) i ((v :: rest).map some)
        = runAvg (updated_average (S / (i : ℚ)) v (i + 1)) (i + 1) (rest.map some) := rfl
    rw [step, updated_average_step S v i h0]
    have hrec := ih (i + 1) (S + v) (by omega)
    push_cast at hrec ⊢
    rw [hrec]
    rw [List.sum_cons]
    simp only [List.length_cons]
    push_cast
    ring_nf

/-- Running the scalar accumulator over a list, split at an append. -/
lemma runAvg_append (xs ys : List (Option ℚ)) :
    ∀ (avg : ℚ) (i : ℕ),
      runAvg avg i (xs ++ ys) = runAvg (runAvg avg i xs) (i + xs.length) ys := by
  induction xs with
  | nil => intro avg i; simp [runAvg]
  | cons x rest ih =>
    intro avg i
    cases x with
    | none =>
      have e : ((none :: rest : List (Option ℚ)) ++ ys) = none :: (rest ++ ys) := rfl
      rw [e]
      show runAvg avg (i + 1) (rest ++ ys) = _
      rw [ih avg (i + 1)]
      have : i + 1 + rest.length = i + (rest.length + 1) := by omega
      rw [this]
      rfl
    | some v =>
      have e : ((some v :: rest : List (Option ℚ)) ++ ys) = some v :: (rest ++ ys) := rfl
      rw [e]
      show runAvg (updated_average avg v (i + 1)) (i + 1) (rest ++ ys) = _
      rw [ih _ (i + 1)]
      have : i + 1 + rest.length = i + (rest.length + 1) := by omega
      rw [this]
      rfl

/-- Absent values leave the scalar accumulator untouched. -/
lemma runAvg_nones (os : List (Option ℚ)) (h : ∀ o ∈ os, o = none) :
    ∀ (avg : ℚ) (i : ℕ), runAvg avg i os = avg := by
  induction os with
  | nil => intro avg i; rfl
  | cons o rest ih =>
    intro avg i
    have ho : o = none := h o (List.mem_cons_self o rest)
    subst ho
    exact ih (fun o hm => h o (List.mem_cons_of_mem _ hm)) avg (i + 1)

/-- When the snapshots in which the field extracted by `g` is present form
a prefix of the input (values `vs`, followed only by absences), the
accumulator computes the arithmetic mean of `vs`. -/
lemma fieldAverage_prefix (g : AllStats → Option ℚ) (l : List AllStats) (vs : List ℚ)
    (hpat : l.map g = vs.map some ++ List.replicate (l.length - vs.length) none) :
    fieldAverage g l = vs.sum / (vs.length : ℚ) := by
  unfold fieldAverage
  rw [hpat, runAvg_append]
  rw [runAvg_nones _ (fun o hm => List.eq_of_mem_replicate hm)]
  have h00 : (0 : ℚ) = (0 : ℚ) / ((0 : ℕ) : ℚ) := by simp
  rw [h00, runAvg_somes vs 0 0 (fun _ => rfl)]
  simp

/-! ## The claims -/

/-- C1: the claim says that on a full history `push` advances the latest
pointer to `(previous latest + 1) mod N` (`N` the capacity) and overwrites
that slot, so no slot is permanently skipped. The code computes
`(index + 1) % (capacity - 1)` instead (`get_next_index`, lines 356-362).
Concretely, with capacity `N = 2`: after pushes of snapshots 1, 2, 3, 4 the
latest index is `0` — not `(0 + 1) % 2 = 1` as the claim requires for the
fourth push — and slot 1 still holds snapshot 2: it is never overwritten
again. This theorem evaluates the code at that failing input. -/
theorem claim1_push_advances_mod_capacity_minus_one :
    (((((StatsHistory.new 2).push (mkStats 1)).push (mkStats 2)).push
        (mkStats 3)).push (mkStats 4)).most_recent_index = 0 ∧
    (((((StatsHistory.new 2).push (mkStats 1)).push (mkStats 2)).push
        (mkStats 3)).push (mkStats 4)).stats = [mkStats 4, mkStats 2] ∧
    (0 + 1) % 2 = 1 := by
  refine ⟨rfl, rfl, rfl⟩

/-- C2: the claim says that for every `k ≤ N` pushes into an empty history,
`get_most_recent_stats` returns the last-pushed snapshot and a full
iteration yields exactly the `k` pushed snapshots in push order. The
first part holds, but at `N = k = 2` (pushes of snapshots 1, 2) the
iterator — whose wraparound is `% (max_size - 1) = % 1` — yields slot 0
forever: its first three `next` calls all yield snapshot 1 and the `done`
flag is still unset, instead of yielding `[snapshot 1, snapshot 2]` and
stopping. This theorem evaluates the code at that failing input. -/
theorem claim2_iteration_at_capacity_broken :
    (((StatsHistory.new 2).push (mkStats 1)).push (mkStats 2)).get_most_recent_stats
        = some (mkStats 2) ∧
    iterEmit (((StatsHistory.new 2).push (mkStats 1)).push (mkStats 2)) 3
        (intoIter (((StatsHistory.new 2).push (mkStats 1)).push (mkStats 2)))
      = [mkStats 1, mkStats 1, mkStats 1] ∧
    (iterRunN (((StatsHistory.new 2).push (mkStats 1)).push (mkStats 2)) 3
        (intoIter (((StatsHistory.new 2).push (mkStats 1)).push (mkStats 2)))).done
      = false := by
  refine ⟨rfl, rfl, rfl⟩

/-- C3: the claim says iterating any reachable history state terminates.
For the reachable state `fullHistory3` (three pushes into a fresh
capacity-3 history, `most_recent_index = 2`) the iterator starts at index
1 and cycles between indices 1 and 0 forever — the wraparound
`% (max_size - 1) = % 2` can never reach index 2, so the `done` flag is
never set and iteration does not terminate. -/
theorem claim3_iteration_nonterminating : ¬ iterTerminates fullHistory3 := by
  rintro ⟨n, hn⟩
  have hcycle : (iterRunN fullHistory3 n (intoIter fullHistory3)).done = false :=
    fullHistory3_iter_cycle n (intoIter fullHistory3) (Or.inr rfl)
  rw [hcycle] at hn
  exact Bool.false_ne_true hn

/-- C8: `consolidate_all_stats` signals a precondition violation (a Rust
`panic!`, modelled as `none`) on the empty input list, and returns
normally (`some`) on every non-empty input list. -/
theorem claim8_consolidate_empty_panics :
    consolidate_all_stats [] = none ∧
    ∀ l : List AllStats, l ≠ [] → (consolidate_all_stats l).isSome := by
  refine ⟨rfl, fun l hl => ?_⟩
  obtain ⟨last, hlast⟩ := Option.isSome_iff_exists.1 (List.getLast?_isSome.mpr hl)
  unfold consolidate_all_stats
  rw [hlast]
  rfl

/-- Witness for C8: the non-emptiness hypothesis discharged on the
singleton list. -/
theorem claim8_witness : (consolidate_all_stats [mkStats 5]).isSome :=
  claim8_consolidate_empty_panics.2 [mkStats 5] (by decide)

/-- C9: on a non-empty history, `update_most_recent_stats` replaces the
snapshot at the latest slot in place — same latest index, same number of
occupied slots, same capacity, the stats list updated only at the latest
index — and a subsequent `push` advances to the same index it would have
without the update; on an empty history it behaves exactly like `push`. -/
theorem claim9_update_most_recent_in_place (h : StatsHistory) (s t : AllStats) :
    (h.stats ≠ [] →
      (h.update_most_recent_stats s).most_recent_index = h.most_recent_index ∧
      (h.update_most_recent_stats s).stats.length = h.stats.length ∧
      (h.update_most_recent_stats s).max_size = h.max_size ∧
      (h.update_most_recent_stats s).stats = h.stats.set h.most_recent_index s ∧
      ((h.update_most_recent_stats s).push t).most_recent_index
        = (h.push t).most_recent_index) ∧
    (h.stats = [] → h.update_most_recent_stats s = h.push s) := by
  constructor
  · intro hne
    have hE : h.stats.isEmpty = false := by simp [hne]
    refine ⟨?_, ?_, ?_, ?_, ?_⟩
    · simp [StatsHistory.update_most_recent_stats, hE]
    · simp [StatsHistory.update_most_recent_stats, hE]
    · simp [StatsHistory.update_most_recent_stats, hE]
    · simp [StatsHistory.update_most_recent_stats, hE]
    · simp only [StatsHistory.update_most_recent_stats, hE, Bool.false_eq_true, if_false,
        StatsHistory.push, StatsHistory.get_next_index, List.length_set]
      by_cases hfull : h.stats.length = h.max_size <;> simp [hfull]
  · intro he
    simp [StatsHistory.update_most_recent_stats, he]

/-- The concrete result of consolidating the single default snapshot
`mkStats 6`: every averaged field present with zero values. -/
def consolidatedOfMk6 : AllStats :=
  { general := { uptime_seconds := none, boot_timestamp := none,
                 load_averages := some ⟨0, 0, 0⟩ }
    cpu := { per_logical_cpu_load_percent := some [], aggregate_load_percent := some 0,
             temp_celsius := some 0 }
    memory := some ⟨0, 0⟩
    filesystems := none
    network := { interfaces := none, sockets := some ⟨0, 0, 0, 0, 0⟩ }
    collection_time := 6 }

/-- C4, counterexample: the claim says the online-mean divisor increments
only when the field is present, so absent values never dilute the mean.
Input: two snapshots, the first with no aggregate CPU load, the second
with aggregate load `2.0`. The presence-only mean is `2.0`, but the code
divides by the overall snapshot position (`i + 1 = 2`) and returns `1.0`:
the absent first snapshot diluted the mean. -/
theorem claim4_counterexample :
    (consolidate_all_stats
        [mkStats 0, { mkStats 1 with cpu := ⟨none, some 2, none⟩ }]).map
      (fun out => out.cpu.aggregate_load_percent) = some (some 1) ∧ (1 : ℚ) ≠ 2 := by
  constructor
  · norm_num [consolidate_all_stats, fieldAverage, aggregateOf, runAvg, updated_average,
      mkStats, AllStats.default0]
  · norm_num

/-- C4, amended: `consolidate_all_stats` updates each optional numeric
field's running mean with divisor `i + 1`, where `i` is the snapshot's
0-based position among ALL input snapshots — not a presence count. The
presence-only mean is therefore obtained exactly in the case the
counterexample leaves intact: when the snapshots where the field is
present form a prefix of the input, the output equals the arithmetic mean
of the present values (first conjunct, uniformly in the field extractor);
and each averaged output field is the corresponding accumulator value
(second conjunct). -/
theorem claim4_global_position_divisor :
    (∀ (g : AllStats → Option ℚ) (l : List AllStats) (vs : List ℚ), vs ≠ ([] : List ℚ) →
        l.map g = vs.map some ++ List.replicate (l.length - vs.length) none →
        fieldAverage g l = vs.sum / (vs.length : ℚ)) ∧
    (∀ (l : List AllStats) (out : AllStats), consolidate_all_stats l = some out →
        out.cpu.aggregate_load_percent = some (fieldAverage aggregateOf l) ∧
        out.cpu.temp_celsius = some (fieldAverage tempOf l) ∧
        out.general.load_averages = some ⟨fieldAverage oneMinOf l, fieldAverage fiveMinOf l,
          fieldAverage fifteenMinOf l⟩ ∧
        out.memory = some ⟨rustRoundNat (fieldAverage memUsedOf l), maxTotalMem l⟩ ∧
        out.network.sockets = some ⟨rustRoundNat (fieldAverage tcpInUseOf l),
          rustRoundNat (fieldAverage tcpOrphanedOf l), rustRoundNat (fieldAverage udpInUseOf l),
          rustRoundNat (fieldAverage tcp6InUseOf l),
          rustRoundNat (fieldAverage udp6InUseOf l)⟩) := by
  constructor
  · intro g l vs _ hpat
    exact fieldAverage_prefix g l vs hpat
  · intro l out hout
    unfold consolidate_all_stats at hout
    cases hgl : l.getLast? with
    | none => rw [hgl] at hout; exact absurd hout (by simp)
    | some last =>
      rw [hgl] at hout
      injection hout with hrec
      subst hrec
      exact ⟨rfl, rfl, rfl, rfl, rfl⟩

/-- Witness for C4's amended theorem: the prefix hypothesis discharged on
a singleton list with an aggregate load of `4.0` (first conjunct), and the
`some`-equation hypothesis discharged on the concrete consolidation of
`[mkStats 6]` (second conjunct). -/
theorem claim4_witness :
    fieldAverage aggregateOf [{ mkStats 3 with cpu := ⟨none, some 4, none⟩ }]
        = ([(4 : ℚ)]).sum / ((([(4 : ℚ)]).length : ℕ) : ℚ) ∧
    consolidatedOfMk6.cpu.aggregate_load_percent
        = some (fieldAverage aggregateOf [mkStats 6]) :=
  ⟨claim4_global_position_divisor.1 aggregateOf
      [{ mkStats 3 with cpu := ⟨none, some 4, none⟩ }] [4] (by simp) (by rfl),
   (claim4_global_position_divisor.2 [mkStats 6] _ (by
      norm_num [consolidate_all_stats, fieldAverage, aggregateOf, tempOf, oneMinOf, fiveMinOf,
        fifteenMinOf, memUsedOf, tcpInUseOf, tcpOrphanedOf, udpInUseOf, tcp6InUseOf,
        udp6InUseOf, maxTotalMem, runAvg, runVecAvg, rustRoundNat, rustRound, mkStats,
        AllStats.default0, consolidatedOfMk6])).1⟩

/-- C5, counterexample: the claim says a flush `push`es the consolidated
snapshot and then `push`es the raw snapshot, adding two entries. On the
concrete one-entry capacity-3 history and a one-snapshot batch, the code's
flush (`update_most_recent_stats` then `push`, lines 75-79) produces a
history with 2 entries, while the claimed push-push flush would produce 3:
the flush adds one entry, not two. -/
theorem claim5_counterexample :
    consolidation_flush true ⟨3, [mkStats 1], 0⟩ [mkStats 2]
        ≠ consolidation_flush_per_spec ⟨3, [mkStats 1], 0⟩ [mkStats 2] ∧
    (consolidation_flush true ⟨3, [mkStats 1], 0⟩ [mkStats 2]).stats.length = 1 + 1 ∧
    (consolidation_flush_per_spec ⟨3, [mkStats 1], 0⟩ [mkStats 2]).stats.length = 1 + 2 := by
  have h1 : (consolidation_flush true ⟨3, [mkStats 1], 0⟩ [mkStats 2]).stats.length = 1 + 1 := by
    simp [consolidation_flush, consolidate_all_stats, StatsHistory.update_most_recent_stats,
      StatsHistory.push, StatsHistory.get_next_index]
  have h2 : (consolidation_flush_per_spec ⟨3, [mkStats 1], 0⟩ [mkStats 2]).stats.length
      = 1 + 2 := by
    simp [consolidation_flush_per_spec, consolidate_all_stats, StatsHistory.push,
      StatsHistory.get_next_index]
  refine ⟨fun heq => ?_, h1, h2⟩
  rw [heq, h2] at h1
  exact absurd h1 (by decide)

/-- C5, amended: when the batch (with the new sample appended) reaches the
consolidation threshold, the loop consolidates the batch, attempts
persistence — whose outcome does not influence the history (third
conjunct) — REPLACES the most recent in-progress entry with the
consolidated snapshot via `update_most_recent_stats`, pushes the raw
snapshot as a fresh entry, and clears the batch; so on a non-empty,
below-capacity history each flush adds exactly one entry via `push`. -/
theorem claim5_flush_replaces_then_pushes (persistOk persistOk' : Bool) (limit : ℕ)
    (batch : List AllStats) (h : StatsHistory) (new_stats : AllStats)
    (hflush : limit ≤ (batch ++ [new_stats]).length) :
    ∃ c, consolidate_all_stats (batch ++ [new_stats]) = some c ∧
      loop_iteration persistOk limit batch h new_stats
        = ([], (h.update_most_recent_stats c).push new_stats) ∧
      loop_iteration persistOk limit batch h new_stats
        = loop_iteration persistOk' limit batch h new_stats ∧
      (h.stats ≠ [] → h.stats.length < h.max_size →
        (loop_iteration persistOk limit batch h new_stats).2.stats.length
          = h.stats.length + 1) := by
  have hgl : (batch ++ [new_stats]).getLast? = some new_stats := List.getLast?_concat _
  obtain ⟨c, hc⟩ : ∃ c, consolidate_all_stats (batch ++ [new_stats]) = some c := by
    unfold consolidate_all_stats
    rw [hgl]
    exact ⟨_, rfl⟩
  refine ⟨c, hc, ?_, ?_, ?_⟩
  · simp only [loop_iteration, consolidation_flush, hc, hgl, if_pos hflush]
  · simp only [loop_iteration, consolidation_flush, hc, hgl, if_pos hflush]
  · intro hne hlt
    simp only [loop_iteration, consolidation_flush, hc, hgl, if_pos hflush]
    have hE : h.stats.isEmpty = false := by simp [hne]
    simp [StatsHistory.update_most_recent_stats, hE, StatsHistory.push, List.length_set,
      hlt.ne]

/-- Witness for C5's amended theorem: the threshold, non-emptiness and
below-capacity hypotheses discharged on a one-entry capacity-3 history
with consolidation limit 1. -/
theorem claim5_witness :
    (loop_iteration true 1 [] ⟨3, [mkStats 1], 0⟩ (mkStats 2)).2.stats.length
      = (⟨3, [mkStats 1], 0⟩ : StatsHistory).stats.length + 1 := by
  obtain ⟨c, -, -, -, hlen⟩ :=
    claim5_flush_replaces_then_pushes true false 1 [] ⟨3, [mkStats 1], 0⟩ (mkStats 2)
      (by simp)
  exact hlen (by decide) (by decide)

/-- Successfully decoded lines are in bijection with the input lines. -/
lemma decodeLines_length (dec : String → Except String AllStats) :
    ∀ (lines : List String) (ss : List AllStats),
      decodeLines dec lines = .ok ss → ss.length = lines.length := by
  intro lines
  induction lines with
  | nil =>
    intro ss hss
    cases hss
    rfl
  | cons l rest ih =>
    intro ss hss
    unfold decodeLines at hss
    cases hdl : dec l with
    | error e => rw [hdl] at hss; cases hss
    | ok s =>
      rw [hdl] at hss
      cases hrest : decodeLines dec rest with
      | error e => rw [hrest] at hss; cases hss
      | ok ss' =>
        rw [hrest] at hss
        cases hss
        simp [ih ss' hrest]

/-- A malformed line anywhere in the input makes decoding fail. -/
lemma decodeLines_error (dec : String → Except String AllStats) :
    ∀ lines : List String, (∃ l ∈ lines, ∃ e, dec l = .error e) →
      ∃ e', decodeLines dec lines = .error e' := by
  intro lines
  induction lines with
  | nil => rintro ⟨l, hmem, -⟩; cases hmem
  | cons l rest ih =>
    rintro ⟨l', hmem, e, he⟩
    unfold decodeLines
    rcases List.mem_cons.1 hmem with rfl | hmem'
    · rw [he]
      exact ⟨e, rfl⟩
    · cases hdl : dec l with
      | error e0 => exact ⟨e0, rfl⟩
      | ok s =>
        obtain ⟨e', he'⟩ := ih ⟨l', hmem', e, he⟩
        rw [he']
        exact ⟨e', rfl⟩

/-- A decoder for concrete load tests: `"bad"` is malformed, any other
line decodes to a default snapshot whose collection time is the line
length. -/
def dec0 : String → Except String AllStats :=
  fun s => if s = "bad" then .error "malformed" else .ok (mkStats s.length)

/-- C6, counterexample: the claim says that when at least one persistence
file exists, the returned history's capacity equals the total number of
lines read. With no "old" file and an existing but empty "current" file,
zero lines are read, yet the code returns the empty history of capacity 1
(lines 311-318: `NonZeroUsize::new(0)` is `None`), not capacity 0. -/
theorem claim6_counterexample :
    load_from (fun _ => Except.error "malformed") none (some [])
        = Except.ok (StatsHistory.new 1) ∧
    (StatsHistory.new 1).max_size = 1 ∧ (1 : ℕ) ≠ 0 := by
  exact ⟨rfl, rfl, by decide⟩

/-- C6, amended: `load_from` returns the empty history of capacity 1 when
neither file exists — and, more generally, whenever zero lines are read.
Otherwise it decodes the "old" file's lines then the "current" file's
lines; on success the history's entries are exactly the decoded snapshots
in that order (as many as there are lines), its capacity is the total
number of lines read and its latest pointer is the last line read; a
malformed line anywhere fails the whole load with a deserialization
error, with no partial result. -/
theorem claim6_load_from (dec : String → Except String AllStats)
    (oldFile currentFile : Option (List String)) :
    (oldFile = none → currentFile = none →
        load_from dec oldFile currentFile = .ok (StatsHistory.new 1)) ∧
    (∀ oldStats curStats, decodeLines dec (oldFile.getD []) = .ok oldStats →
        decodeLines dec (currentFile.getD []) = .ok curStats →
        (oldStats ++ curStats).length
            = (oldFile.getD []).length + (currentFile.getD []).length ∧
        (oldStats ++ curStats = [] →
            load_from dec oldFile currentFile = .ok (StatsHistory.new 1)) ∧
        (oldStats ++ curStats ≠ [] →
            load_from dec oldFile currentFile
              = .ok { max_size := (oldStats ++ curStats).length,
                      stats := oldStats ++ curStats,
                      most_recent_index := (oldStats ++ curStats).length - 1 })) ∧
    ((∃ l ∈ oldFile.getD [] ++ currentFile.getD [], ∃ e, dec l = .error e) →
        ∃ e', load_from dec oldFile currentFile = .error e') := by
  refine ⟨?_, ?_, ?_⟩
  · rintro rfl rfl
    rfl
  · intro oldStats curStats hold hcur
    refine ⟨by simp [decodeLines_length dec _ _ hold, decodeLines_length dec _ _ hcur], ?_, ?_⟩
    · intro hnil
      unfold load_from
      rw [hold, hcur]
      simp [hnil]
    · intro hne
      have hlen : (oldStats ++ curStats).length ≠ 0 := by
        simpa [List.length_eq_zero] using hne
      unfold load_from
      rw [hold, hcur]
      show (if (oldStats ++ curStats).length = 0 then _ else _) = _
      rw [if_neg hlen]
  · rintro ⟨l, hmem, e, he⟩
    rcases List.mem_append.1 hmem with hmem' | hmem'
    · obtain ⟨e', he'⟩ := decodeLines_error dec _ ⟨l, hmem', e, he⟩
      refine ⟨e', ?_⟩
      unfold load_from
      rw [he']
    · cases hold : decodeLines dec (oldFile.getD []) with
      | error e0 =>
        refine ⟨e0, ?_⟩
        unfold load_from
        rw [hold]
      | ok oldStats =>
        obtain ⟨e', he'⟩ := decodeLines_error dec _ ⟨l, hmem', e, he⟩
        refine ⟨e', ?_⟩
        unfold load_from
        rw [hold, he']

/-- Witness for C6's amended theorem: the decode-success hypotheses
discharged on a two-line "old" file and a one-line "current" file under
the concrete decoder `dec0`. -/
theorem claim6_witness :
    load_from dec0 (some ["xy"]) (some ["z"])
      = Except.ok { max_size := 2, stats := [mkStats 2, mkStats 1],
                    most_recent_index := 1 } := by
  have h := ((claim6_load_from dec0 (some ["xy"]) (some ["z"])).2.1
    [mkStats 2] [mkStats 1] (by rfl) (by rfl)).2.2 (by simp)
  simpa using h

/-- Appending one written line grows a file by the line's length plus the
newline byte. -/
lemma fileSize_append_line (lines : List String) (l : String) :
    fileSize (lines ++ [l]) = fileSize lines + (l.length + 1) := by
  simp [fileSize]

/-- The size invariant maintained by `persist_stats` when every serialized
line (newline included) is at most `L` bytes: each of the two files stays
at most `limit / 2 - 1 + L` bytes. -/
def persistSizeInv (limit L : ℕ) (st : PersistState) : Prop :=
  optFileSize st.currentFile ≤ limit / 2 - 1 + L ∧
  optFileSize st.oldFile ≤ limit / 2 - 1 + L

/-- The size of a freshly started one-line file. -/
lemma fileSize_singleton (l : String) : fileSize [l] = l.length + 1 := by
  simp [fileSize]

/-- One `persist_stats` call preserves the size invariant. -/
lemma persist_stats_preserves_inv (serialize : AllStats → String) (limit L : ℕ)
    (hL : ∀ s, (serialize s).length + 1 ≤ L) (st : PersistState) (s : AllStats)
    (hst : persistSizeInv limit L st) :
    persistSizeInv limit L (persist_stats serialize s st limit) := by
  obtain ⟨hc, ho⟩ := hst
  have hLs := hL s
  unfold persist_stats
  cases hcf : st.currentFile with
  | none =>
    simp only [persistSizeInv, optFileSize, Option.getD_none, Option.getD_some,
      List.nil_append]
    rw [fileSize_singleton]
    refine ⟨by omega, ?_⟩
    simpa [optFileSize] using ho
  | some lines =>
    rw [hcf] at hc
    simp only [optFileSize, Option.getD_some] at hc
    simp only [persistSizeInv, optFileSize]
    split_ifs with hrot
    · simp only [Option.getD_none, Option.getD_some, List.nil_append]
      rw [fileSize_singleton]
      exact ⟨by omega, hc⟩
    · simp only [Option.getD_some]
      rw [fileSize_append_line]
      refine ⟨by omega, ?_⟩
      simpa [optFileSize] using ho

/-- The size invariant is preserved by any sequence of appends. -/
lemma persist_stats_foldl_inv (serialize : AllStats → String) (limit L : ℕ)
    (hL : ∀ s, (serialize s).length + 1 ≤ L) :
    ∀ (ss : List AllStats) (st : PersistState), persistSizeInv limit L st →
      persistSizeInv limit L
        (ss.foldl (fun acc s => persist_stats serialize s acc limit) st) := by
  intro ss
  induction ss with
  | nil => intro st hst; exact hst
  | cons s rest ih =>
    intro st hst
    exact ih _ (persist_stats_preserves_inv serialize limit L hL st s hst)

/-- C7: `persist_stats` sets the directory-exists flag; it rotates
"current" to "old" (overwriting any prior "old") exactly when "current"
exists with size `≥ limit / 2`, and then appends the serialized snapshot
as one line to a fresh "current"; without rotation it appends to the
existing (or newly created) "current" and leaves "old" alone.
Consequently, when every serialized line (newline byte included) is at
most `L` bytes, the combined size of the two files after any sequence of
appends from an empty directory stays bounded by `limit + 2 * L` — near
the configured limit. -/
theorem claim7_persist_rotation_and_bound (serialize : AllStats → String) (limit L : ℕ)
    (hL : ∀ s, (serialize s).length + 1 ≤ L) :
    (∀ (st : PersistState) (s : AllStats),
        (persist_stats serialize s st limit).dirExists = true ∧
        (rotates st limit = true →
          (persist_stats serialize s st limit).oldFile = st.currentFile ∧
          (persist_stats serialize s st limit).currentFile = some [serialize s]) ∧
        (rotates st limit = false →
          (persist_stats serialize s st limit).oldFile = st.oldFile ∧
          (persist_stats serialize s st limit).currentFile
            = some (st.currentFile.getD [] ++ [serialize s]))) ∧
    (∀ ss : List AllStats,
        optFileSize ((ss.foldl (fun acc s => persist_stats serialize s acc limit)
            ⟨false, none, none⟩).currentFile)
          + optFileSize ((ss.foldl (fun acc s => persist_stats serialize s acc limit)
            ⟨false, none, none⟩).oldFile) ≤ limit + 2 * L) := by
  constructor
  · intro st s
    unfold persist_stats rotates
    cases hcf : st.currentFile with
    | none => simp
    | some lines =>
      by_cases hrot : limit / 2 ≤ fileSize lines
      · simp [hrot]
      · simp [hrot]
  · intro ss
    have hinv := persist_stats_foldl_inv serialize limit L hL ss ⟨false, none, none⟩
      ⟨by simp [optFileSize, fileSize], by simp [optFileSize, fileSize]⟩
    obtain ⟨h1, h2⟩ := hinv
    omega

/-- Witness for C7: the line-size hypothesis discharged for the constant
serializer `fun _ => "x"` with `L = 2` and `limit = 4`, on a three-append
sequence. -/
theorem claim7_witness :
    optFileSize (([mkStats 1, mkStats 2, mkStats 3].foldl
        (fun acc s => persist_stats (fun _ => "x") s acc 4) ⟨false, none, none⟩).currentFile)
      + optFileSize (([mkStats 1, mkStats 2, mkStats 3].foldl
        (fun acc s => persist_stats (fun _ => "x") s acc 4) ⟨false, none, none⟩).oldFile)
      ≤ 4 + 2 * 2 :=
  (claim7_persist_rotation_and_bound (fun _ => "x") 4 2
    (fun _ => le_refl 2)).2 [mkStats 1, mkStats 2, mkStats 3]

/-- Absent values leave the per-CPU vector accumulator untouched. -/
lemma runVecAvg_nones (os : List (Option (List ℚ))) (h : ∀ o ∈ os, o = none) :
    ∀ (acc : List ℚ) (i : ℕ), runVecAvg acc i os = acc := by
  induction os with
  | nil => intro acc i; rfl
  | cons o rest ih =>
    intro acc i
    have ho : o = none := h o (List.mem_cons_self o rest)
    subst ho
    exact ih (fun o hm => h o (List.mem_cons_of_mem _ hm)) acc (i + 1)

/-- A field that is absent in every snapshot averages to the accumulator's
starting value `0`. -/
lemma fieldAverage_of_none (g : AllStats → Option ℚ) (l : List AllStats)
    (h : ∀ s ∈ l, g s = none) : fieldAverage g l = 0 := by
  unfold fieldAverage
  refine runAvg_nones _ ?_ 0 0
  intro o hm
  obtain ⟨s, hs, rfl⟩ := List.mem_map.1 hm
  exact h s hs

/-- With no memory reading anywhere, the running maximum of `total_mb`
stays `0`. -/
lemma maxTotalMem_of_none (l : List AllStats) (h : ∀ s ∈ l, s.memory = none) :
    maxTotalMem l = 0 := by
  unfold maxTotalMem
  suffices haux : ∀ (l' : List AllStats) (m : ℕ), (∀ s ∈ l', s.memory = none) →
      l'.foldl
        (fun m s =>
          match s.memory with
          | some ms => if m < ms.total_mb then ms.total_mb else m
          | none => m)
        m = m by
    exact haux l 0 h
  intro l'
  induction l' with
  | nil => intro m _; rfl
  | cons s rest ih =>
    intro m hm
    have hs := hm s (List.mem_cons_self s rest)
    rw [List.foldl_cons]
    rw [show (match s.memory with
        | some ms => if m < ms.total_mb then ms.total_mb else m
        | none => m) = m from by rw [hs]]
    exact ih m (fun s' h' => hm s' (List.mem_cons_of_mem _ h'))

/-- Rounding the zero average gives zero. -/
lemma rustRoundNat_zero : rustRoundNat 0 = 0 := by
  norm_num [rustRoundNat, rustRound]

/-- C10: for every non-empty input, the snapshot built by
`consolidate_all_stats` wraps every averaged field in `Some` — load
averages, per-core CPU loads, aggregate CPU load, CPU temperature, memory
and socket stats are all present in the output — and when such a field was
absent in every input snapshot the output holds zero values for it (the
per-core load list being empty), so consolidation never preserves the
absence of these fields. -/
theorem claim10_consolidation_forces_presence (l : List AllStats) (hne : l ≠ []) :
    ∃ out, consolidate_all_stats l = some out ∧
      out.general.load_averages.isSome = true ∧
      out.cpu.per_logical_cpu_load_percent.isSome = true ∧
      out.cpu.aggregate_load_percent.isSome = true ∧
      out.cpu.temp_celsius.isSome = true ∧
      out.memory.isSome = true ∧
      out.network.sockets.isSome = true ∧
      ((∀ s ∈ l, s.general.load_averages = none) →
          out.general.load_averages = some ⟨0, 0, 0⟩) ∧
      ((∀ s ∈ l, s.cpu.per_logical_cpu_load_percent = none) →
          out.cpu.per_logical_cpu_load_percent = some []) ∧
      ((∀ s ∈ l, s.cpu.aggregate_load_percent = none) →
          out.cpu.aggregate_load_percent = some 0) ∧
      ((∀ s ∈ l, s.cpu.temp_celsius = none) → out.cpu.temp_celsius = some 0) ∧
      ((∀ s ∈ l, s.memory = none) → out.memory = some ⟨0, 0⟩) ∧
      ((∀ s ∈ l, s.network.sockets = none) →
          out.network.sockets = some ⟨0, 0, 0, 0, 0⟩) := by
  obtain ⟨last, hlast⟩ := Option.isSome_iff_exists.1 (List.getLast?_isSome.mpr hne)
  unfold consolidate_all_stats
  rw [hlast]
  refine ⟨_, rfl, rfl, rfl, rfl, rfl, rfl, rfl, ?_, ?_, ?_, ?_, ?_, ?_⟩
  · intro h
    have h1 : fieldAverage oneMinOf l = 0 :=
      fieldAverage_of_none _ _ (fun s hs => by simp [oneMinOf, h s hs])
    have h5 : fieldAverage fiveMinOf l = 0 :=
      fieldAverage_of_none _ _ (fun s hs => by simp [fiveMinOf, h s hs])
    have h15 : fieldAverage fifteenMinOf l = 0 :=
      fieldAverage_of_none _ _ (fun s hs => by simp [fifteenMinOf, h s hs])
    simp [h1, h5, h15]
  · intro h
    have hv : runVecAvg [] 0 (l.map (·.cpu.per_logical_cpu_load_percent)) = [] := by
      refine runVecAvg_nones _ ?_ [] 0
      intro o hm
      obtain ⟨s, hs, rfl⟩ := List.mem_map.1 hm
      exact h s hs
    simp [hv]
  · intro h
    have ha : fieldAverage aggregateOf l = 0 :=
      fieldAverage_of_none _ _ (fun s hs => by simp [aggregateOf, h s hs])
    simp [ha]
  · intro h
    have ht : fieldAverage tempOf l = 0 :=
      fieldAverage_of_none _ _ (fun s hs => by simp [tempOf, h s hs])
    simp [ht]
  · intro h
    have hm : fieldAverage memUsedOf l = 0 :=
      fieldAverage_of_none _ _ (fun s hs => by simp [memUsedOf, h s hs])
    have hmax : maxTotalMem l = 0 := maxTotalMem_of_none l h
    simp [hm, hmax, rustRoundNat_zero]
  · intro h
    have h1 : fieldAverage tcpInUseOf l = 0 :=
      fieldAverage_of_none _ _ (fun s hs => by simp [tcpInUseOf, h s hs])
    have h2 : fieldAverage tcpOrphanedOf l = 0 :=
      fieldAverage_of_none _ _ (fun s hs => by simp [tcpOrphanedOf, h s hs])
    have h3 : fieldAverage udpInUseOf l = 0 :=
      fieldAverage_of_none _ _ (fun s hs => by simp [udpInUseOf, h s hs])
    have h4 : fieldAverage tcp6InUseOf l = 0 :=
      fieldAverage_of_none _ _ (fun s hs => by simp [tcp6InUseOf, h s hs])
    have h5 : fieldAverage udp6InUseOf l = 0 :=
      fieldAverage_of_none _ _ (fun s hs => by simp [udp6InUseOf, h s hs])
    simp [h1, h2, h3, h4, h5, rustRoundNat_zero]

/-- Witness for C10: the non-emptiness hypothesis discharged on the
singleton list `[mkStats 7]` (where every optional field is absent). -/
theorem claim10_witness :
    ∃ out, consolidate_all_stats [mkStats 7] = some out ∧
      out.memory = some ⟨0, 0⟩ ∧ out.general.load_averages = some ⟨0, 0, 0⟩ := by
  obtain ⟨out, hout, -, -, -, -, -, -, hload, -, -, -, hmem, -⟩ :=
    claim10_consolidation_forces_presence [mkStats 7] (by decide)
  exact ⟨out, hout, hmem (by simp [mkStats, AllStats.default0]),
    hload (by simp [mkStats, AllStats.default0])⟩

/-- Witness for C9: the non-emptiness hypothesis discharged on a concrete
one-entry history of capacity 2. -/
theorem claim9_witness :
    (StatsHistory.update_most_recent_stats ⟨2, [mkStats 1], 0⟩ (mkStats 2)).most_recent_index
      = (⟨2, [mkStats 1], 0⟩ : StatsHistory).most_recent_index :=
  ((claim9_update_most_recent_in_place ⟨2, [mkStats 1], 0⟩ (mkStats 2) (mkStats 3)).1
    (by decide)).1

end StatsDashboard
